import Mathlib

/-!
Verification of the black-hole simulation core (src/simulation.js).

The numeric state of the program is embedded over `ℝ` (the JavaScript code
computes with IEEE doubles; all claims under scrutiny are about the algorithm,
which we model in exact real arithmetic).  Mutable objects are modelled by
explicit state passing: `stepVerlet` returns the updated particle together
with the distance it returns in the source; the registry (the global
`particles` array) is a `List Particle`, and the per-frame loop of `animate`
is modelled index-by-index exactly as a JavaScript `for...of` loop over a
mutating array behaves (the iterator keeps a numeric cursor and re-checks the
current length each step).  Object reference identity, which `indexOf` uses,
is modelled by an `id` field on particles.
-/

namespace BlackHole

noncomputable section

/-- Gravitational constant of the source (`const G = 100`). -/
def G : ℝ := 100

/-- Central mass of the source (`const M = 1000`). -/
def M : ℝ := 1000

/-- Fixed timestep of the source (`const dt = 0.1`). -/
def dt : ℝ := 0.1

/-- Black-hole (swallow) radius of the source (`const BH_RADIUS = 32`). -/
def BH_RADIUS : ℝ := 32

/-- A 2D point, used for the field-source center and trace entries. -/
@[ext]
structure Point where
  x : ℝ
  y : ℝ

/-- Result record of `acceleration`: the object `{ ax, ay, r }`. -/
@[ext]
structure Accel where
  ax : ℝ
  ay : ℝ
  r : ℝ

/-- A projectile, as built in the `mouseup` handler:
`{ x, y, vx, vy, ax, ay, trace }`.  The extra `id` field models JavaScript
object reference identity (each spawned object is a fresh reference; `indexOf`
compares references). -/
@[ext]
structure Particle where
  id : ℕ
  x : ℝ
  y : ℝ
  vx : ℝ
  vy : ℝ
  ax : ℝ
  ay : ℝ
  trace : List Point

/-- The field model `acceleration(p)` (src/simulation.js lines 104-118):
distance from the center `c`, a zero guard at `r == 0`, otherwise magnitude
`G*M/r^2` directed from `p` toward the center. -/
def acceleration (c : Point) (p : Point) : Accel :=
  let dx := p.x - c.x
  let dy := p.y - c.y
  let r := Real.sqrt (dx * dx + dy * dy)
  if r = 0 then { ax := 0, ay := 0, r := 0 }
  else
    let aMag := G * M / (r * r)
    { ax := -aMag * (dx / r), ay := -aMag * (dy / r), r := r }

/-- The integrator `stepVerlet(p, dt)` (src/simulation.js lines 121-137),
with the in-place mutation of `p` made explicit: the returned pair is the
particle after the call together with the returned value `a1.r`.  The
sequence of assignments of the source is mirrored exactly: `p.ax` is first
set to `a0.ax` (the value used in the position and velocity updates) and
finally overwritten with `a1.ax`. -/
def stepVerlet (c : Point) (p : Particle) (dtv : ℝ) : Particle × ℝ :=
  let a0 := acceleration c { x := p.x, y := p.y }
  let ax0 := a0.ax
  let ay0 := a0.ay
  let x1 := p.x + p.vx * dtv + 0.5 * ax0 * dtv * dtv
  let y1 := p.y + p.vy * dtv + 0.5 * ay0 * dtv * dtv
  let a1 := acceleration c { x := x1, y := y1 }
  let vx1 := p.vx + 0.5 * (ax0 + a1.ax) * dtv
  let vy1 := p.vy + 0.5 * (ay0 + a1.ay) * dtv
  ({ p with x := x1, y := y1, vx := vx1, vy := vy1, ax := a1.ax, ay := a1.ay }, a1.r)

/-- Modelled from the spec, section 4.2: the five numbered steps of the
velocity Verlet algorithm, written as successive particle states exactly as
the spec words them (step 1 stores a0 as the particle's acceleration, step 2
updates the position, step 3 evaluates the field at the new position, step 4
updates the velocity, step 5 stores a1 and returns r from step 3).  This is
the spec-side definition to be compared with `stepVerlet`. -/
def specVerlet (c : Point) (p : Particle) (dtv : ℝ) : Particle × ℝ :=
  let a0 := acceleration c { x := p.x, y := p.y }
  let p1 := { p with ax := a0.ax, ay := a0.ay }
  let p2 := { p1 with
    x := p1.x + p1.vx * dtv + 0.5 * a0.ax * dtv * dtv,
    y := p1.y + p1.vy * dtv + 0.5 * a0.ay * dtv * dtv }
  let a1 := acceleration c { x := p2.x, y := p2.y }
  let p3 := { p2 with
    vx := p2.vx + 0.5 * (a0.ax + a1.ax) * dtv,
    vy := p2.vy + 0.5 * (a0.ay + a1.ay) * dtv }
  ({ p3 with ax := a1.ax, ay := a1.ay }, a1.r)

/-- The current position of a particle as a `Point` (the object literal
`{ x: particle.x, y: particle.y }` pushed onto the trace). -/
def posOf (p : Particle) : Point := { x := p.x, y := p.y }

/-- The trace update done each frame in `animate` (src/simulation.js lines
213-214): push the current (post-step) position, then if the trace length
exceeds 1200 remove the oldest entry (`shift`). -/
def pushTrace (p : Particle) : Particle :=
  let tr := p.trace ++ [posOf p]
  { p with trace := if tr.length > 1200 then tr.tail else tr }

/-- The whole per-particle state update of one frame, as applied to a
particle that the loop body of `animate` reaches: the in-place `stepVerlet`
followed by the trace push/shift. -/
def tickParticle (c : Point) (p : Particle) : Particle :=
  pushTrace (stepVerlet c p dt).1

/-- The call `particles.indexOf(particle)` : index of the first element with the given
reference identity (modelled by `id`), `none` for -1. -/
def indexOfId : List Particle → ℕ → Option ℕ
  | [], _ => none
  | q :: rest, n => if q.id = n then some 0 else (indexOfId rest n).map (· + 1)

/-- The call `particles.splice(particles.indexOf(particle), 1)` : if the element is
found, remove exactly it; if `indexOf` returned -1, `splice(-1, 1)` removes
the LAST element of the array (and does nothing on an empty array). -/
def spliceAtId (arr : List Particle) (n : ℕ) : List Particle :=
  match indexOfId arr n with
  | some j => arr.eraseIdx j
  | none => arr.dropLast

/-- The escape predicate of `animate` (src/simulation.js lines 221-227):
position outside the viewport expanded by 2000 units on each side. -/
def offscreen (W H : ℝ) (p : Particle) : Prop :=
  p.x < -2000 ∨ p.x > W + 2000 ∨ p.y < -2000 ∨ p.y > H + 2000

instance offscreenDec (W H : ℝ) (p : Particle) : Decidable (offscreen W H p) := by
  unfold offscreen
  exact inferInstance

/-- One pass of the body of the `for (const particle of particles)` loop in
`animate` (src/simulation.js lines 210-230), acting on the array at cursor
position `i`: step the particle in place, push its trace, then the swallow
splice (`r < BH_RADIUS`) and the offscreen splice, each via
`indexOf`/`splice`.  If the cursor is past the end, nothing happens. -/
def processAt (W H : ℝ) (c : Point) (arr : List Particle) (i : ℕ) : List Particle :=
  match arr[i]? with
  | none => arr
  | some p =>
      let r := (stepVerlet c p dt).2
      let p2 := tickParticle c p
      let arr1 := arr.set i p2
      let arr2 := if r < BH_RADIUS then spliceAtId arr1 p2.id else arr1
      if offscreen W H p2 then spliceAtId arr2 p2.id else arr2

/-- The `for...of` iteration of `animate` over the mutating `particles`
array: the iterator keeps a numeric cursor, re-checks the CURRENT length at
each step, yields the element at the cursor, and advances by one.  Removals
performed by the body are visible to the subsequent iteration steps. -/
def animateLoop (W H : ℝ) (c : Point) (arr : List Particle) (i : ℕ) : List Particle :=
  if h : i < arr.length then animateLoop W H c (processAt W H c arr i) (i + 1) else arr
termination_by arr.length - i
decreasing_by
  have hsp : ∀ (l : List Particle) (n : ℕ), (spliceAtId l n).length ≤ l.length := by
    intro l n
    unfold spliceAtId
    cases indexOfId l n with
    | none => exact l.dropLast_sublist.length_le
    | some j => exact (l.eraseIdx_sublist j).length_le
  have hle : (processAt W H c arr i).length ≤ arr.length := by
    unfold processAt
    cases hq : arr[i]? with
    | none => exact Nat.le_refl _
    | some p =>
      by_cases hb1 : (stepVerlet c p dt).2 < BH_RADIUS <;>
        by_cases hb2 : offscreen W H (tickParticle c p) <;>
          simp only [hb1, hb2, if_true, if_false, if_pos, if_neg, not_false_iff] <;>
            calc _ ≤ (arr.set i (tickParticle c p)).length := by
                    first
                      | exact le_trans (hsp _ _) (le_trans (hsp _ _) (Nat.le_refl _))
                      | exact le_trans (hsp _ _) (Nat.le_refl _)
                      | exact Nat.le_refl _
              _ = arr.length := arr.length_set i _
  omega

/-- One full tick of `animate` over the registry: run the loop from cursor
0 (the overlay passes and the render pass do not mutate the registry). -/
def animateTick (W H : ℝ) (c : Point) (arr : List Particle) : List Particle :=
  animateLoop W H c arr 0

/-- The function `resetParticle` (src/simulation.js lines 52-56): the reset button
handler replaces the registry with a fresh empty array. -/
def resetParticle (arr : List Particle) : List Particle := []

/-- The full history of post-step positions of a particle that is processed
(and kept) every tick: entry `k` is the position right after tick `k+1`. -/
def histList (c : Point) (p0 : Particle) (n : ℕ) : List Point :=
  (List.range n).map fun k => posOf ((tickParticle c)^[k + 1] p0)

/-- Concrete particle for the skip scenario: spawned exactly at the center
(500,500) with zero velocity, so the next step swallows it. -/
def pSkipA : Particle :=
  { id := 1, x := 500, y := 500, vx := 0, vy := 0, ax := 0, ay := 0, trace := [] }

/-- Concrete particle sitting behind `pSkipA` in the registry. -/
def pSkipB : Particle :=
  { id := 2, x := 600, y := 500, vx := 3, vy := 4, ax := 0, ay := 0, trace := [] }

/-- Concrete particle for the C8 counterexample: spawned at distance 10 from
the center (500,500), with initial velocity (1000, 0). -/
def pC8 : Particle :=
  { id := 0, x := 510, y := 500, vx := 1000, vy := 0, ax := 0, ay := 0, trace := [] }

end

end BlackHole

namespace BlackHole

/-- Helper: evaluate a concrete square root. -/
theorem sqrt_eval (b a : ℝ) (hb : 0 ≤ b) (h : b * b = a) : Real.sqrt a = b := by
  rw [← h]
  exact Real.sqrt_mul_self hb

/-- The `r` component returned by `acceleration` always equals the Euclidean
distance from the queried position to the center (in the guard branch both
are zero). -/
theorem accel_r_eq (c p : Point) :
    (acceleration c p).r =
      Real.sqrt ((p.x - c.x) * (p.x - c.x) + (p.y - c.y) * (p.y - c.y)) := by
  simp only [acceleration]
  split
  · next h => exact h.symm
  · rfl

/-- The value returned by `stepVerlet` is the Euclidean distance of the
post-step position from the center. -/
theorem stepVerlet_r (c : Point) (p : Particle) (dtv : ℝ) :
    (stepVerlet c p dtv).2 =
      Real.sqrt (((stepVerlet c p dtv).1.x - c.x) * ((stepVerlet c p dtv).1.x - c.x) +
        ((stepVerlet c p dtv).1.y - c.y) * ((stepVerlet c p dtv).1.y - c.y)) := by
  unfold stepVerlet
  exact accel_r_eq c _

/-- Claim C1: `stepVerlet(p, dt)` performs exactly the velocity Verlet
algorithm as worded by the spec — field evaluation a0 at the current position
(stored in the particle), position update `pos + v*dt + 0.5*a0*dt^2`, second
field evaluation a1 at the new position, velocity update
`v + 0.5*(a0+a1)*dt`, a1 stored as the particle's acceleration — and the
returned value is the distance of the post-step position from the center
(the r of the second field evaluation). -/
theorem stepVerlet_is_velocity_verlet (c : Point) (p : Particle) (dtv : ℝ) :
    stepVerlet c p dtv = specVerlet c p dtv ∧
    (stepVerlet c p dtv).2 =
      Real.sqrt (((stepVerlet c p dtv).1.x - c.x) * ((stepVerlet c p dtv).1.x - c.x) +
        ((stepVerlet c p dtv).1.y - c.y) * ((stepVerlet c p dtv).1.y - c.y)) :=
  ⟨rfl, stepVerlet_r c p dtv⟩

/-- Claim C2: away from the center, `acceleration` returns the Euclidean
distance r as its third component, its vector has magnitude `G*M/r^2`, and
its direction is exactly opposite to `p - center` (a positive multiple of
`-(p - center)`). -/
theorem accel_inverse_square (c p : Point) (h : ¬(p.x = c.x ∧ p.y = c.y)) :
    (acceleration c p).r =
      Real.sqrt ((p.x - c.x) * (p.x - c.x) + (p.y - c.y) * (p.y - c.y)) ∧
    Real.sqrt ((acceleration c p).ax * (acceleration c p).ax +
        (acceleration c p).ay * (acceleration c p).ay) =
      G * M / ((acceleration c p).r * (acceleration c p).r) ∧
    ∃ k : ℝ, 0 < k ∧ (acceleration c p).ax = -(k * (p.x - c.x)) ∧
      (acceleration c p).ay = -(k * (p.y - c.y)) := by
  have hsum : 0 < (p.x - c.x) * (p.x - c.x) + (p.y - c.y) * (p.y - c.y) := by
    rcases not_and_or.mp h with h1 | h1
    · have : p.x - c.x ≠ 0 := sub_ne_zero.mpr h1
      nlinarith [mul_self_nonneg (p.y - c.y), mul_self_pos.mpr this]
    · have : p.y - c.y ≠ 0 := sub_ne_zero.mpr h1
      nlinarith [mul_self_nonneg (p.x - c.x), mul_self_pos.mpr this]
  have hrpos : 0 < Real.sqrt ((p.x - c.x) * (p.x - c.x) + (p.y - c.y) * (p.y - c.y)) :=
    Real.sqrt_pos.mpr hsum
  set r := Real.sqrt ((p.x - c.x) * (p.x - c.x) + (p.y - c.y) * (p.y - c.y)) with hrdef
  have hrr : r * r = (p.x - c.x) * (p.x - c.x) + (p.y - c.y) * (p.y - c.y) :=
    Real.mul_self_sqrt (le_of_lt hsum)
  have hr0 : r ≠ 0 := ne_of_gt hrpos
  have hrr0 : r * r ≠ 0 := mul_ne_zero hr0 hr0
  have hacc : acceleration c p =
      { ax := -(G * M / (r * r)) * ((p.x - c.x) / r),
        ay := -(G * M / (r * r)) * ((p.y - c.y) / r), r := r } := by
    simp only [acceleration]
    rw [← hrdef, if_neg hr0]
  have hGM : 0 < G * M := by norm_num [G, M]
  have haM : 0 < G * M / (r * r) := by positivity
  refine ⟨by rw [hacc], ?_, ?_⟩
  · rw [hacc]
    show Real.sqrt (-(G * M / (r * r)) * ((p.x - c.x) / r) * (-(G * M / (r * r)) * ((p.x - c.x) / r)) +
        -(G * M / (r * r)) * ((p.y - c.y) / r) * (-(G * M / (r * r)) * ((p.y - c.y) / r))) =
      G * M / (r * r)
    have hmag : -(G * M / (r * r)) * ((p.x - c.x) / r) * (-(G * M / (r * r)) * ((p.x - c.x) / r)) +
        -(G * M / (r * r)) * ((p.y - c.y) / r) * (-(G * M / (r * r)) * ((p.y - c.y) / r)) =
        (G * M / (r * r)) * (G * M / (r * r)) *
          (((p.x - c.x) * (p.x - c.x) + (p.y - c.y) * (p.y - c.y)) / (r * r)) := by
      ring
    rw [hmag, ← hrr, div_self hrr0, mul_one]
    exact Real.sqrt_mul_self (le_of_lt haM)
  · refine ⟨G * M / (r * r) / r, by positivity, ?_, ?_⟩
    · rw [hacc]
      show -(G * M / (r * r)) * ((p.x - c.x) / r) = -(G * M / (r * r) / r * (p.x - c.x))
      ring
    · rw [hacc]
      show -(G * M / (r * r)) * ((p.y - c.y) / r) = -(G * M / (r * r) / r * (p.y - c.y))
      ring

/-- Witness for C2 at the concrete input center (0,0), position (10,0). -/
theorem accel_inverse_square_witness :
    (acceleration ⟨0, 0⟩ ⟨10, 0⟩).r =
      Real.sqrt (((10 : ℝ) - 0) * ((10 : ℝ) - 0) + ((0 : ℝ) - 0) * ((0 : ℝ) - 0)) ∧
    Real.sqrt ((acceleration ⟨0, 0⟩ ⟨10, 0⟩).ax * (acceleration ⟨0, 0⟩ ⟨10, 0⟩).ax +
        (acceleration ⟨0, 0⟩ ⟨10, 0⟩).ay * (acceleration ⟨0, 0⟩ ⟨10, 0⟩).ay) =
      G * M / ((acceleration ⟨0, 0⟩ ⟨10, 0⟩).r * (acceleration ⟨0, 0⟩ ⟨10, 0⟩).r) ∧
    ∃ k : ℝ, 0 < k ∧ (acceleration ⟨0, 0⟩ ⟨10, 0⟩).ax = -(k * ((10 : ℝ) - 0)) ∧
      (acceleration ⟨0, 0⟩ ⟨10, 0⟩).ay = -(k * ((0 : ℝ) - 0)) :=
  accel_inverse_square ⟨0, 0⟩ ⟨10, 0⟩ (by norm_num)

/-- Claim C3: at the center the guard returns (0,0,0), and for every other
position the returned r — the divisor used by the non-guard branch — is
nonzero, so every field evaluation the integrator makes divides by a nonzero
quantity. -/
theorem accel_center_guard (c q : Point) (h : ¬(q.x = c.x ∧ q.y = c.y)) :
    acceleration c { x := c.x, y := c.y } = { ax := 0, ay := 0, r := 0 } ∧
    (acceleration c q).r ≠ 0 := by
  constructor
  · unfold acceleration
    simp
  · have hsum : 0 < (q.x - c.x) * (q.x - c.x) + (q.y - c.y) * (q.y - c.y) := by
      rcases not_and_or.mp h with h1 | h1
      · have : q.x - c.x ≠ 0 := sub_ne_zero.mpr h1
        nlinarith [mul_self_nonneg (q.y - c.y), mul_self_pos.mpr this]
      · have : q.y - c.y ≠ 0 := sub_ne_zero.mpr h1
        nlinarith [mul_self_nonneg (q.x - c.x), mul_self_pos.mpr this]
    rw [accel_r_eq]
    exact ne_of_gt (Real.sqrt_pos.mpr hsum)

/-- Witness for C3 at center (3,4) and query position (3,5). -/
theorem accel_center_guard_witness :
    acceleration ⟨3, 4⟩ { x := (3 : ℝ), y := (4 : ℝ) } =
      { ax := 0, ay := 0, r := 0 } ∧
    (acceleration ⟨3, 4⟩ ⟨3, 5⟩).r ≠ 0 :=
  accel_center_guard ⟨3, 4⟩ ⟨3, 5⟩ (by norm_num)

/-- The integrator leaves the reference identity of the particle unchanged. -/
theorem stepVerlet_id (c : Point) (p : Particle) (dtv : ℝ) :
    (stepVerlet c p dtv).1.id = p.id := rfl

/-- The per-frame particle update keeps the reference identity. -/
theorem tickParticle_id (c : Point) (p : Particle) :
    (tickParticle c p).id = p.id := rfl

/-- The trace push does not move the particle: the post-update position is
the post-step position. -/
theorem tickParticle_x (c : Point) (p : Particle) :
    (tickParticle c p).x = (stepVerlet c p dt).1.x := rfl

/-- The trace push does not move the particle (y coordinate). -/
theorem tickParticle_y (c : Point) (p : Particle) :
    (tickParticle c p).y = (stepVerlet c p dt).1.y := rfl

/-- Unfolding `animateLoop` when the cursor has reached the current end. -/
theorem animateLoop_stop (W H : ℝ) (c : Point) (arr : List Particle) (i : ℕ)
    (h : ¬ i < arr.length) : animateLoop W H c arr i = arr := by
  rw [animateLoop]
  exact dif_neg h

/-- Unfolding `animateLoop` when the cursor is in range: process the element
there and advance. -/
theorem animateLoop_step (W H : ℝ) (c : Point) (arr : List Particle) (i : ℕ)
    (h : i < arr.length) :
    animateLoop W H c arr i = animateLoop W H c (processAt W H c arr i) (i + 1) := by
  conv_lhs => rw [animateLoop]
  exact dif_pos h

/-- Helper: setting an index back to the value already there is the
identity. -/
theorem set_getElem_self {α : Type} (l : List α) : ∀ (i : ℕ) (a : α),
    l[i]? = some a → l.set i a = l := by
  induction l with
  | nil => intro i a h; simp at h
  | cons b t ih =>
    intro i a h
    cases i with
    | zero =>
      simp only [List.getElem?_cons_zero, Option.some.injEq] at h
      rw [h]
      rfl
    | succ j =>
      simp only [List.getElem?_cons_succ] at h
      simp only [List.set_cons_succ, List.cons.injEq, true_and]
      exact ih j a h

/-- Helper: replacing the element at `i` by one with the same id leaves the
id sequence of the registry unchanged. -/
theorem ids_set (arr : List Particle) (i : ℕ) (p q : Particle)
    (hp : arr[i]? = some p) (hq : q.id = p.id) :
    (arr.set i q).map Particle.id = arr.map Particle.id := by
  rw [List.map_set, hq]
  apply set_getElem_self
  simp [hp]

/-- Helper: `map` commutes with `eraseIdx`. -/
theorem map_eraseIdx_comm {α β : Type} (f : α → β) (l : List α) : ∀ (i : ℕ),
    (l.eraseIdx i).map f = (l.map f).eraseIdx i := by
  induction l with
  | nil => intro i; rfl
  | cons b t ih =>
    intro i
    cases i with
    | zero => rfl
    | succ j => simp [List.eraseIdx_cons_succ, ih j]

/-- Helper: in a duplicate-free list, removing the index holding `a` removes
every occurrence of `a`. -/
theorem not_mem_eraseIdx_self {α : Type} {l : List α} : ∀ {i : ℕ} {a : α},
    l.Nodup → l[i]? = some a → a ∉ l.eraseIdx i := by
  induction l with
  | nil => intro i a _ h2; simp at h2
  | cons b t ih =>
    intro i a h1 h2
    have hbt : b ∉ t ∧ t.Nodup := List.nodup_cons.mp h1
    cases i with
    | zero =>
      simp only [List.getElem?_cons_zero, Option.some.injEq] at h2
      rw [List.eraseIdx_cons_zero, ← h2]
      exact hbt.1
    | succ j =>
      simp only [List.getElem?_cons_succ] at h2
      have hat : a ∈ t := List.getElem?_mem h2
      rw [List.eraseIdx_cons_succ]
      intro hmem
      rcases List.mem_cons.mp hmem with he | hmem2
      · exact hbt.1 (he ▸ hat)
      · exact ih hbt.2 h2 hmem2

/-- Helper: `indexOf` finds exactly the cursor position of a particle when
registry ids are duplicate-free (the reference-identity regime of the
JavaScript array). -/
theorem indexOfId_spec (arr : List Particle) : ∀ (i : ℕ) (p : Particle),
    arr[i]? = some p → (arr.map Particle.id).Nodup → indexOfId arr p.id = some i := by
  induction arr with
  | nil => intro i p hp _; simp at hp
  | cons a t ih =>
    intro i p hp hnd
    have hnd2 : a.id ∉ t.map Particle.id ∧ (t.map Particle.id).Nodup := by
      simpa [List.nodup_cons] using hnd
    cases i with
    | zero =>
      simp only [List.getElem?_cons_zero, Option.some.injEq] at hp
      subst hp
      simp [indexOfId]
    | succ j =>
      simp only [List.getElem?_cons_succ] at hp
      have hmem : p ∈ t := List.getElem?_mem hp
      have hne : ¬ a.id = p.id := fun he =>
        hnd2.1 (he ▸ List.mem_map_of_mem Particle.id hmem)
      rw [indexOfId, if_neg hne, ih j p hp hnd2.2]
      rfl

/-- Helper: a splice never adds elements (it removes the found element, or
the last one, or nothing). -/
theorem spliceAtId_sublist (l : List Particle) (n : ℕ) : (spliceAtId l n).Sublist l := by
  unfold spliceAtId
  cases indexOfId l n with
  | none => exact l.dropLast_sublist
  | some j => exact l.eraseIdx_sublist j

/-- Unfolding `processAt` when the cursor is past the current end. -/
theorem processAt_none (W H : ℝ) (c : Point) (arr : List Particle) (i : ℕ)
    (h : arr[i]? = none) : processAt W H c arr i = arr := by
  unfold processAt
  rw [h]

/-- Unfolding `processAt` on a present element: step-and-trace the particle,
write it back, then the two conditional splices in source order. -/
theorem processAt_some (W H : ℝ) (c : Point) (arr : List Particle) (i : ℕ) (p : Particle)
    (hp : arr[i]? = some p) :
    processAt W H c arr i =
      if offscreen W H (tickParticle c p)
      then spliceAtId (if (stepVerlet c p dt).2 < BH_RADIUS
            then spliceAtId (arr.set i (tickParticle c p)) (tickParticle c p).id
            else arr.set i (tickParticle c p)) (tickParticle c p).id
      else (if (stepVerlet c p dt).2 < BH_RADIUS
            then spliceAtId (arr.set i (tickParticle c p)) (tickParticle c p).id
            else arr.set i (tickParticle c p)) := by
  unfold processAt
  rw [hp]

/-- Helper: one loop-body pass never grows the registry. -/
theorem processAt_length_le (W H : ℝ) (c : Point) (arr : List Particle) (i : ℕ) :
    (processAt W H c arr i).length ≤ arr.length := by
  cases hpj : arr[i]? with
  | none => rw [processAt_none W H c arr i hpj]
  | some p =>
    rw [processAt_some W H c arr i p hpj]
    have hset : (arr.set i (tickParticle c p)).length = arr.length :=
      arr.length_set i _
    split
    · refine le_trans (spliceAtId_sublist _ _).length_le ?_
      split
      · exact le_trans (spliceAtId_sublist _ _).length_le (le_of_eq hset)
      · exact le_of_eq hset
    · split
      · exact le_trans (spliceAtId_sublist _ _).length_le (le_of_eq hset)
      · exact le_of_eq hset

/-- Helper: one loop-body pass never introduces a new id into the registry. -/
theorem ids_processAt_subset (W H : ℝ) (c : Point) (arr : List Particle) (j : ℕ) (q : ℕ)
    (hq : q ∈ (processAt W H c arr j).map Particle.id) : q ∈ arr.map Particle.id := by
  cases hpj : arr[j]? with
  | none => rw [processAt_none W H c arr j hpj] at hq; exact hq
  | some p =>
    rw [processAt_some W H c arr j p hpj] at hq
    have hmain : ∀ l : List Particle, q ∈ l.map Particle.id →
        l.Sublist (arr.set j (tickParticle c p)) → q ∈ arr.map Particle.id := by
      intro l hml hl
      rw [← ids_set arr j p (tickParticle c p) hpj (tickParticle_id c p)]
      exact (hl.map Particle.id).subset hml
    refine hmain _ hq ?_
    split
    · refine (spliceAtId_sublist _ _).trans ?_
      split
      · exact spliceAtId_sublist _ _
      · exact List.Sublist.refl _
    · split
      · exact spliceAtId_sublist _ _
      · exact List.Sublist.refl _

/-- Helper: an id absent from the registry stays absent for the rest of the
frame loop. -/
theorem not_mem_ids_animateLoop (W H : ℝ) (c : Point) (q : ℕ) :
    ∀ (k : ℕ) (arr : List Particle) (i : ℕ), arr.length - i ≤ k →
      q ∉ arr.map Particle.id → q ∉ (animateLoop W H c arr i).map Particle.id := by
  intro k
  induction k with
  | zero =>
    intro arr i hk habs
    have h : ¬ i < arr.length := by omega
    rw [animateLoop_stop W H c arr i h]
    exact habs
  | succ k ih =>
    intro arr i hk habs
    by_cases h : i < arr.length
    · rw [animateLoop_step W H c arr i h]
      refine ih (processAt W H c arr i) (i + 1) ?_ ?_
      · have := processAt_length_le W H c arr i
        omega
      · intro hmem
        exact habs (ids_processAt_subset W H c arr i q hmem)
    · rw [animateLoop_stop W H c arr i h]
      exact habs

/-- Helper: a particle within swallow distance of the center after its step
stays inside the viewport margin, for a nonnegative viewport whose center is
`(W/2, H/2)`: the swallow and escape predicates can never hold together. -/
theorem near_center_onscreen (W H : ℝ) (hW : 0 ≤ W) (hH : 0 ≤ H) (q : Particle)
    (h : Real.sqrt ((q.x - W / 2) * (q.x - W / 2) + (q.y - H / 2) * (q.y - H / 2)) <
      BH_RADIUS) : ¬ offscreen W H q := by
  have hsum0 : 0 ≤ (q.x - W / 2) * (q.x - W / 2) + (q.y - H / 2) * (q.y - H / 2) :=
    add_nonneg (mul_self_nonneg _) (mul_self_nonneg _)
  have hself := Real.mul_self_sqrt hsum0
  have hnn := Real.sqrt_nonneg ((q.x - W / 2) * (q.x - W / 2) + (q.y - H / 2) * (q.y - H / 2))
  have h32 : Real.sqrt ((q.x - W / 2) * (q.x - W / 2) + (q.y - H / 2) * (q.y - H / 2)) < 32 := by
    simpa [BH_RADIUS] using h
  have hs : (q.x - W / 2) * (q.x - W / 2) + (q.y - H / 2) * (q.y - H / 2) < 1024 := by
    nlinarith [h32, hnn, hself]
  intro ho
  unfold offscreen at ho
  rcases ho with h1 | h1 | h1 | h1
  · nlinarith [sq_nonneg (q.x - W / 2 + 2000), mul_self_nonneg (q.y - H / 2), hW, h1, hs]
  · nlinarith [sq_nonneg (q.x - W / 2 - 2000), mul_self_nonneg (q.y - H / 2), hW, h1, hs]
  · nlinarith [sq_nonneg (q.y - H / 2 + 2000), mul_self_nonneg (q.x - W / 2), hH, h1, hs]
  · nlinarith [sq_nonneg (q.y - H / 2 - 2000), mul_self_nonneg (q.x - W / 2), hH, h1, hs]

/-- Claim C4: for a viewport with nonnegative dimensions and the center kept
at `(W/2, H/2)` (as `resize` does), the two removal predicates of a loop
pass can never hold together, and the pass removes exactly the processed
particle (the element at the cursor) when either predicate holds, and
removes nothing otherwise — in particular no other particle is ever removed
on account of this one. -/
theorem tick_removal_once (W H : ℝ) (c : Point) (hcx : c.x = W / 2) (hcy : c.y = H / 2)
    (hW : 0 ≤ W) (hH : 0 ≤ H) (arr : List Particle) (i : ℕ) (p : Particle)
    (hp : arr[i]? = some p) (hnd : (arr.map Particle.id).Nodup) :
    ¬((stepVerlet c p dt).2 < BH_RADIUS ∧ offscreen W H (tickParticle c p)) ∧
    processAt W H c arr i =
      if (stepVerlet c p dt).2 < BH_RADIUS ∨ offscreen W H (tickParticle c p)
      then (arr.set i (tickParticle c p)).eraseIdx i
      else arr.set i (tickParticle c p) := by
  have hexcl : (stepVerlet c p dt).2 < BH_RADIUS → ¬ offscreen W H (tickParticle c p) := by
    intro hsw
    apply near_center_onscreen W H hW hH
    have hr := stepVerlet_r c p dt
    rw [hcx, hcy] at hr
    rw [tickParticle_x, tickParticle_y, ← hr]
    exact hsw
  obtain ⟨hlen, -⟩ := List.getElem?_eq_some_iff.mp hp
  have hset : (arr.set i (tickParticle c p))[i]? = some (tickParticle c p) :=
    List.getElem?_set_self hlen
  have hnd1 : ((arr.set i (tickParticle c p)).map Particle.id).Nodup := by
    rw [ids_set arr i p _ hp (tickParticle_id c p)]
    exact hnd
  have hsplice : spliceAtId (arr.set i (tickParticle c p)) (tickParticle c p).id =
      (arr.set i (tickParticle c p)).eraseIdx i := by
    unfold spliceAtId
    rw [indexOfId_spec _ i _ hset hnd1]
  refine ⟨fun hb => hexcl hb.1 hb.2, ?_⟩
  rw [processAt_some W H c arr i p hp]
  by_cases hsw : (stepVerlet c p dt).2 < BH_RADIUS
  · rw [if_pos hsw, if_neg (hexcl hsw), hsplice, if_pos (Or.inl hsw)]
  · by_cases hoff : offscreen W H (tickParticle c p)
    · rw [if_neg hsw, if_pos hoff, hsplice, if_pos (Or.inr hoff)]
    · rw [if_neg hsw, if_neg hoff, if_neg (by simp [hsw, hoff])]

/-- Witness for C4: viewport 1000 x 1000 with center (500,500), the
singleton registry holding the center particle, cursor 0. -/
theorem tick_removal_once_witness :
    ¬((stepVerlet ⟨500, 500⟩ pSkipA dt).2 < BH_RADIUS ∧
        offscreen 1000 1000 (tickParticle ⟨500, 500⟩ pSkipA)) ∧
    processAt 1000 1000 ⟨500, 500⟩ [pSkipA] 0 =
      if (stepVerlet ⟨500, 500⟩ pSkipA dt).2 < BH_RADIUS ∨
          offscreen 1000 1000 (tickParticle ⟨500, 500⟩ pSkipA)
      then ([pSkipA].set 0 (tickParticle ⟨500, 500⟩ pSkipA)).eraseIdx 0
      else [pSkipA].set 0 (tickParticle ⟨500, 500⟩ pSkipA) :=
  tick_removal_once 1000 1000 ⟨500, 500⟩ (by norm_num) (by norm_num)
    (by norm_num) (by norm_num) [pSkipA] 0 pSkipA rfl (by simp)

/-- Claim C7: a particle whose step during a tick returns a distance below
the swallow radius is absent from the registry at the end of that tick (the
loop continues from the next cursor position) and from every later tick's
snapshot: it is never resurrected.  `arr` is the registry at the moment the
loop's cursor reaches the particle, with duplicate-free ids (the JavaScript
reference-identity regime). -/
theorem swallowed_never_returns (W H : ℝ) (c : Point) (arr : List Particle) (i : ℕ)
    (p : Particle) (hp : arr[i]? = some p) (hnd : (arr.map Particle.id).Nodup)
    (hsw : (stepVerlet c p dt).2 < BH_RADIUS) :
    ∀ m : ℕ, p.id ∉ (((animateTick W H c)^[m])
      (animateLoop W H c (processAt W H c arr i) (i + 1))).map Particle.id := by
  obtain ⟨hlen, -⟩ := List.getElem?_eq_some_iff.mp hp
  have hset : (arr.set i (tickParticle c p))[i]? = some (tickParticle c p) :=
    List.getElem?_set_self hlen
  have hnd1 : ((arr.set i (tickParticle c p)).map Particle.id).Nodup := by
    rw [ids_set arr i p _ hp (tickParticle_id c p)]
    exact hnd
  have hsplice : spliceAtId (arr.set i (tickParticle c p)) (tickParticle c p).id =
      (arr.set i (tickParticle c p)).eraseIdx i := by
    unfold spliceAtId
    rw [indexOfId_spec _ i _ hset hnd1]
  have habs0 : p.id ∉ ((arr.set i (tickParticle c p)).eraseIdx i).map Particle.id := by
    rw [map_eraseIdx_comm, ids_set arr i p _ hp (tickParticle_id c p)]
    refine not_mem_eraseIdx_self hnd ?_
    simp [hp]
  have h1 : p.id ∉ (processAt W H c arr i).map Particle.id := by
    rw [processAt_some W H c arr i p hp, if_pos hsw, hsplice]
    split
    · intro hmem
      exact habs0 (((spliceAtId_sublist _ _).map Particle.id).subset hmem)
    · exact habs0
  have h2 : p.id ∉ (animateLoop W H c (processAt W H c arr i) (i + 1)).map Particle.id :=
    not_mem_ids_animateLoop W H c p.id (processAt W H c arr i).length _ _ (by omega) h1
  intro m
  induction m with
  | zero => exact h2
  | succ k ihm =>
    rw [Function.iterate_succ_apply']
    exact not_mem_ids_animateLoop W H c p.id
      (((animateTick W H c)^[k] (animateLoop W H c (processAt W H c arr i) (i + 1))).length)
      _ 0 (by omega) ihm

/-- The per-frame trace update in terms of the pre-tick trace and the
post-step position: push, then drop the head when over 1200. -/
theorem tickParticle_trace (c : Point) (p : Particle) :
    (tickParticle c p).trace =
      if (p.trace ++ [posOf (tickParticle c p)]).length > 1200
      then (p.trace ++ [posOf (tickParticle c p)]).tail
      else p.trace ++ [posOf (tickParticle c p)] := rfl

/-- Helper: length of the position history. -/
theorem histList_length (c : Point) (p0 : Particle) (n : ℕ) :
    (histList c p0 n).length = n := by
  simp [histList]

/-- Helper: entry `k` of the position history is the post-step position of
tick `k+1`. -/
theorem histList_getElem (c : Point) (p0 : Particle) {k n : ℕ} (h : k < n) :
    (histList c p0 n)[k]? = some (posOf ((tickParticle c)^[k + 1] p0)) := by
  unfold histList
  rw [List.getElem?_map, List.getElem?_range h]
  rfl

/-- Trace characterization: after `n` ticks from an empty trace, the trace is
the full history of post-step positions with all but the last 1200 entries
dropped. -/
theorem trace_after_iterate (c : Point) (p0 : Particle) (h0 : p0.trace = []) :
    ∀ n : ℕ, ((tickParticle c)^[n] p0).trace = (histList c p0 n).drop (n - 1200) := by
  intro n
  induction n with
  | zero => simpa [histList] using h0
  | succ n ih =>
    have hposeq : posOf (tickParticle c ((tickParticle c)^[n] p0)) =
        posOf ((tickParticle c)^[n + 1] p0) := by
      rw [Function.iterate_succ_apply']
    have hsucc : histList c p0 (n + 1) =
        histList c p0 n ++ [posOf ((tickParticle c)^[n + 1] p0)] := by
      simp [histList, List.range_succ]
    rw [Function.iterate_succ_apply', tickParticle_trace, ih, hposeq]
    by_cases hn : n < 1200
    · rw [if_neg (by
        simp only [List.length_append, List.length_drop, histList_length,
          List.length_cons, List.length_nil]
        omega)]
      rw [show n - 1200 = 0 by omega, show n + 1 - 1200 = 0 by omega, List.drop_zero,
        List.drop_zero, hsucc]
    · rw [if_pos (by
        simp only [List.length_append, List.length_drop, histList_length,
          List.length_cons, List.length_nil]
        omega)]
      rw [← List.drop_append_of_le_length
        (show n - 1200 ≤ (histList c p0 n).length by rw [histList_length]; omega)]
      rw [List.tail_drop, hsucc, show n - 1200 + 1 = n + 1 - 1200 by omega]

/-- Claim C6: a particle processed (and kept) on every tick, starting from
an empty trace, has after more than 1200 ticks a trace of length exactly
1200 whose oldest retained entry is the post-step position of the
1200th-most-recent tick (FIFO eviction), and the trace length never exceeds
1200 after any number of ticks. -/
theorem trace_fifo_bound (c : Point) (p0 : Particle) (h0 : p0.trace = []) (n : ℕ)
    (hn : 1200 < n) :
    ((tickParticle c)^[n] p0).trace.length = 1200 ∧
    ((tickParticle c)^[n] p0).trace.head? =
      some (posOf ((tickParticle c)^[n - 1199] p0)) ∧
    ∀ m : ℕ, ((tickParticle c)^[m] p0).trace.length ≤ 1200 := by
  refine ⟨?_, ?_, ?_⟩
  · rw [trace_after_iterate c p0 h0 n, List.length_drop, histList_length]
    omega
  · rw [trace_after_iterate c p0 h0 n, List.head?_drop,
      histList_getElem c p0 (show n - 1200 < n by omega),
      show n - 1200 + 1 = n - 1199 by omega]
  · intro m
    rw [trace_after_iterate c p0 h0 m, List.length_drop, histList_length]
    omega

/-- Witness for C6: the center particle iterated 1201 ticks. -/
theorem trace_fifo_bound_witness :
    ((tickParticle ⟨500, 500⟩)^[1201] pSkipA).trace.length = 1200 ∧
    ((tickParticle ⟨500, 500⟩)^[1201] pSkipA).trace.head? =
      some (posOf ((tickParticle ⟨500, 500⟩)^[1201 - 1199] pSkipA)) ∧
    ∀ m : ℕ, ((tickParticle ⟨500, 500⟩)^[m] pSkipA).trace.length ≤ 1200 :=
  trace_fifo_bound ⟨500, 500⟩ pSkipA rfl 1201 (by norm_num)

/-- Claim C10: the trace is a faithful value-history: at every tick `n`, the
entry that was appended during tick `t` (still retained while `n < t+1200`)
equals the post-step position of tick `t` itself — later integrator steps,
which mutate the particle's live position, never alter an already-appended
entry. -/
theorem trace_entries_immutable (c : Point) (p0 : Particle) (h0 : p0.trace = [])
    (t n : ℕ) (ht : 1 ≤ t) (htn : t ≤ n) (hlt : n < t + 1200) :
    ((tickParticle c)^[n] p0).trace[(t - 1) - (n - 1200)]? =
      some (posOf ((tickParticle c)^[t] p0)) := by
  rw [trace_after_iterate c p0 h0 n, List.getElem?_drop,
    show n - 1200 + (t - 1 - (n - 1200)) = t - 1 by omega,
    histList_getElem c p0 (show t - 1 < n by omega),
    show t - 1 + 1 = t by omega]

/-- Witness for C10: the entry appended during tick 1 read back after tick
1. -/
theorem trace_entries_immutable_witness :
    ((tickParticle ⟨500, 500⟩)^[1] pSkipA).trace[(1 - 1) - (1 - 1200)]? =
      some (posOf ((tickParticle ⟨500, 500⟩)^[1] pSkipA)) :=
  trace_entries_immutable ⟨500, 500⟩ pSkipA rfl 1 1 (by norm_num) (by norm_num)
    (by norm_num)

/-- Helper: the field evaluated exactly at the center returns zeros via the
guard. -/
theorem accel_center500 :
    acceleration ⟨500, 500⟩ { x := (500 : ℝ), y := (500 : ℝ) } =
      { ax := 0, ay := 0, r := 0 } := by
  simp only [acceleration]
  norm_num

/-- Helper: a full step of the center particle leaves it unchanged and
returns distance 0. -/
theorem stepA_eq : stepVerlet ⟨500, 500⟩ pSkipA dt = (pSkipA, 0) := by
  simp only [stepVerlet, pSkipA]
  norm_num [dt, accel_center500]

/-- Helper: the distance returned for the center particle's step is 0. -/
theorem stepA_r : (stepVerlet ⟨500, 500⟩ pSkipA dt).2 = 0 := by rw [stepA_eq]

/-- Helper: the center particle's post-step x. -/
theorem stepA_x : (stepVerlet ⟨500, 500⟩ pSkipA dt).1.x = 500 := by
  rw [stepA_eq]
  rfl

/-- Helper: the center particle's post-step y. -/
theorem stepA_y : (stepVerlet ⟨500, 500⟩ pSkipA dt).1.y = 500 := by
  rw [stepA_eq]
  rfl

/-- Helper: the stepped center particle triggers the swallow predicate. -/
theorem stepA_swallowed : (stepVerlet ⟨500, 500⟩ pSkipA dt).2 < BH_RADIUS := by
  rw [stepA_r]
  norm_num [BH_RADIUS]

/-- Helper: the stepped center particle is not offscreen in a 1000 x 1000
viewport. -/
theorem stepA_onscreen : ¬ offscreen 1000 1000 (tickParticle ⟨500, 500⟩ pSkipA) := by
  unfold offscreen
  rw [tickParticle_x, tickParticle_y, stepA_x, stepA_y]
  intro h
  rcases h with h | h | h | h <;> norm_num at h

/-- Claim C5 (failing input): the tick on the registry `[pSkipA, pSkipB]`
where `pSkipA` gets swallowed.  The swallow splice shifts `pSkipB` into the
cursor slot, the `for...of` cursor advances past it, and the tick ends with
`pSkipB` untouched — its position, velocity and (empty) trace are exactly
the spawn values, so it was never stepped during this tick, contradicting
the claim that every live particle is stepped exactly once per tick. -/
theorem skipped_particle_not_stepped :
    animateTick 1000 1000 ⟨500, 500⟩ [pSkipA, pSkipB] = [pSkipB] ∧ pSkipB.trace = [] := by
  refine ⟨?_, rfl⟩
  show animateLoop 1000 1000 ⟨500, 500⟩ [pSkipA, pSkipB] 0 = [pSkipB]
  rw [animateLoop_step 1000 1000 ⟨500, 500⟩ [pSkipA, pSkipB] 0 (by simp)]
  rw [processAt_some 1000 1000 ⟨500, 500⟩ [pSkipA, pSkipB] 0 pSkipA rfl]
  rw [if_neg stepA_onscreen, if_pos stepA_swallowed]
  rw [show [pSkipA, pSkipB].set 0 (tickParticle ⟨500, 500⟩ pSkipA) =
    [tickParticle ⟨500, 500⟩ pSkipA, pSkipB] from rfl]
  rw [show spliceAtId [tickParticle ⟨500, 500⟩ pSkipA, pSkipB]
      (tickParticle ⟨500, 500⟩ pSkipA).id = [pSkipB] from by
    simp [spliceAtId, indexOfId]]
  rw [animateLoop_stop 1000 1000 ⟨500, 500⟩ [pSkipB] 1 (by simp)]

/-- Witness for C7 at the concrete registry `[pSkipA]`, cursor 0, checked
one further tick after the swallowing tick. -/
theorem swallowed_never_returns_witness :
    pSkipA.id ∉ (((animateTick 1000 1000 ⟨500, 500⟩)^[1])
      (animateLoop 1000 1000 ⟨500, 500⟩
        (processAt 1000 1000 ⟨500, 500⟩ [pSkipA] 0) (0 + 1))).map Particle.id :=
  swallowed_never_returns 1000 1000 ⟨500, 500⟩ [pSkipA] 0 pSkipA rfl (by simp)
    stepA_swallowed 1

/-- Helper: the field at the C8 spawn position (distance 10, on the x-axis
from the center). -/
theorem accel_510 :
    acceleration ⟨500, 500⟩ { x := (510 : ℝ), y := (500 : ℝ) } =
      { ax := -1000, ay := 0, r := 10 } := by
  have hs : Real.sqrt (((510 : ℝ) - 500) * ((510 : ℝ) - 500) +
      ((500 : ℝ) - 500) * ((500 : ℝ) - 500)) = 10 := by
    rw [show ((510 : ℝ) - 500) * ((510 : ℝ) - 500) +
        ((500 : ℝ) - 500) * ((500 : ℝ) - 500) = 100 by norm_num]
    exact sqrt_eval 10 100 (by norm_num) (by norm_num)
  simp only [acceleration]
  rw [hs, if_neg (by norm_num : ¬(10 : ℝ) = 0)]
  norm_num [G, M]

/-- Helper: post-step x of the fast C8 particle: 510 + 1000*0.1 - 5 = 605. -/
theorem stepC8_x : (stepVerlet ⟨500, 500⟩ pC8 dt).1.x = 605 := by
  simp only [stepVerlet, pC8]
  rw [accel_510]
  norm_num [dt]

/-- Helper: post-step y of the fast C8 particle. -/
theorem stepC8_y : (stepVerlet ⟨500, 500⟩ pC8 dt).1.y = 500 := by
  simp only [stepVerlet, pC8]
  rw [accel_510]
  norm_num [dt]

/-- Helper: the distance returned for the fast C8 particle's step is 105. -/
theorem stepC8_r : (stepVerlet ⟨500, 500⟩ pC8 dt).2 = 105 := by
  rw [stepVerlet_r, stepC8_x, stepC8_y]
  show Real.sqrt (((605 : ℝ) - 500) * ((605 : ℝ) - 500) +
    ((500 : ℝ) - 500) * ((500 : ℝ) - 500)) = 105
  rw [show ((605 : ℝ) - 500) * ((605 : ℝ) - 500) +
      ((500 : ℝ) - 500) * ((500 : ℝ) - 500) = 11025 by norm_num]
  exact sqrt_eval 105 11025 (by norm_num) (by norm_num)

/-- Helper: the fast C8 particle is not swallowed (105 is not below 32). -/
theorem stepC8_not_swallowed : ¬ (stepVerlet ⟨500, 500⟩ pC8 dt).2 < BH_RADIUS := by
  rw [stepC8_r]
  norm_num [BH_RADIUS]

/-- Helper: the fast C8 particle stays well inside the escape margin. -/
theorem stepC8_onscreen : ¬ offscreen 1000 1000 (tickParticle ⟨500, 500⟩ pC8) := by
  unfold offscreen
  rw [tickParticle_x, tickParticle_y, stepC8_x, stepC8_y]
  intro h
  rcases h with h | h | h | h <;> norm_num at h

/-- Claim C8 (counterexample): a particle spawned at distance exactly 10
from the center (with swallow radius 32) but with initial velocity (1000,0)
is still in the registry after the next tick: its post-step distance is 105,
above the swallow radius, and its post-step position (605,500) is far inside
the escape margin, so neither removal predicate fires — refuting "removed by
the very next tick regardless of its initial velocity". -/
theorem particle_r10_fast_survives :
    (pC8.x - 500) * (pC8.x - 500) + (pC8.y - 500) * (pC8.y - 500) = 100 ∧
    BH_RADIUS = 32 ∧
    (animateTick 1000 1000 ⟨500, 500⟩ [pC8]).map Particle.id = [pC8.id] := by
  refine ⟨by norm_num [pC8], rfl, ?_⟩
  show (animateLoop 1000 1000 ⟨500, 500⟩ [pC8] 0).map Particle.id = [pC8.id]
  rw [animateLoop_step 1000 1000 ⟨500, 500⟩ [pC8] 0 (by simp)]
  rw [processAt_some 1000 1000 ⟨500, 500⟩ [pC8] 0 pC8 rfl]
  rw [if_neg stepC8_onscreen, if_neg stepC8_not_swallowed]
  rw [show [pC8].set 0 (tickParticle ⟨500, 500⟩ pC8) = [tickParticle ⟨500, 500⟩ pC8]
    from rfl]
  rw [animateLoop_stop 1000 1000 ⟨500, 500⟩ [tickParticle ⟨500, 500⟩ pC8] 1 (by simp)]
  simp [tickParticle_id]

/-- Claim C8 as amended: a particle spawned at distance 10 from the center
with swallow radius 32 and ZERO initial velocity is removed from the
registry by the very next tick (the step pulls it to distance 5, the swallow
predicate fires, and the splice leaves the registry empty). -/
theorem swallow_r10_zero_velocity (W H : ℝ) (c : Point) (hcx : c.x = W / 2)
    (hcy : c.y = H / 2) (hW : 0 ≤ W) (hH : 0 ≤ H) (p : Particle)
    (hr : (p.x - c.x) * (p.x - c.x) + (p.y - c.y) * (p.y - c.y) = 100)
    (hvx : p.vx = 0) (hvy : p.vy = 0) :
    animateTick W H c [p] = [] := by
  have h10 : Real.sqrt ((p.x - c.x) * (p.x - c.x) + (p.y - c.y) * (p.y - c.y)) = 10 := by
    rw [hr]
    exact sqrt_eval 10 100 (by norm_num) (by norm_num)
  have haax : (acceleration c { x := p.x, y := p.y }).ax = -100 * (p.x - c.x) := by
    simp only [acceleration]
    rw [h10, if_neg (by norm_num : ¬(10 : ℝ) = 0)]
    show -(G * M / (10 * 10)) * ((p.x - c.x) / 10) = -100 * (p.x - c.x)
    rw [show G * M / ((10 : ℝ) * 10) = 1000 by norm_num [G, M]]
    ring
  have haay : (acceleration c { x := p.x, y := p.y }).ay = -100 * (p.y - c.y) := by
    simp only [acceleration]
    rw [h10, if_neg (by norm_num : ¬(10 : ℝ) = 0)]
    show -(G * M / (10 * 10)) * ((p.y - c.y) / 10) = -100 * (p.y - c.y)
    rw [show G * M / ((10 : ℝ) * 10) = 1000 by norm_num [G, M]]
    ring
  have hx1 : (stepVerlet c p dt).1.x = p.x - 0.5 * (p.x - c.x) := by
    simp only [stepVerlet]
    rw [haax, hvx]
    simp only [dt]
    ring
  have hy1 : (stepVerlet c p dt).1.y = p.y - 0.5 * (p.y - c.y) := by
    simp only [stepVerlet]
    rw [haay, hvy]
    simp only [dt]
    ring
  have hr5 : (stepVerlet c p dt).2 = 5 := by
    rw [stepVerlet_r, hx1, hy1]
    rw [show (p.x - 0.5 * (p.x - c.x) - c.x) * (p.x - 0.5 * (p.x - c.x) - c.x) +
        (p.y - 0.5 * (p.y - c.y) - c.y) * (p.y - 0.5 * (p.y - c.y) - c.y) =
        0.25 * ((p.x - c.x) * (p.x - c.x) + (p.y - c.y) * (p.y - c.y)) by ring]
    rw [hr, show (0.25 : ℝ) * 100 = 25 by norm_num]
    exact sqrt_eval 5 25 (by norm_num) (by norm_num)
  have hsw : (stepVerlet c p dt).2 < BH_RADIUS := by
    rw [hr5]
    norm_num [BH_RADIUS]
  have hoff : ¬ offscreen W H (tickParticle c p) := by
    apply near_center_onscreen W H hW hH
    have hsr := stepVerlet_r c p dt
    rw [hcx, hcy] at hsr
    rw [tickParticle_x, tickParticle_y, ← hsr, hr5]
    norm_num [BH_RADIUS]
  show animateLoop W H c [p] 0 = []
  rw [animateLoop_step W H c [p] 0 (by simp)]
  rw [processAt_some W H c [p] 0 p rfl, if_neg hoff, if_pos hsw]
  rw [show [p].set 0 (tickParticle c p) = [tickParticle c p] from rfl]
  rw [show spliceAtId [tickParticle c p] (tickParticle c p).id = [] from by
    simp [spliceAtId, indexOfId]]
  rw [animateLoop_stop W H c [] 1 (by simp)]

/-- Witness for the amended C8: viewport 1000 x 1000, center (500,500), a
particle at (510,500) with zero velocity. -/
theorem swallow_r10_zero_velocity_witness :
    animateTick 1000 1000 ⟨500, 500⟩
      [{ id := 9, x := 510, y := 500, vx := 0, vy := 0, ax := 0, ay := 0,
         trace := [] }] = [] :=
  swallow_r10_zero_velocity 1000 1000 ⟨500, 500⟩ (by norm_num) (by norm_num)
    (by norm_num) (by norm_num) _ (by norm_num) rfl rfl

/-- Claim C9: `clear()` (the reset handler) empties the registry immediately,
and a tick run on the resulting empty registry is a no-op: the loop body is
never entered, so nothing is stepped, appended or removed and the registry
stays empty. -/
theorem clear_then_tick_noop (W H : ℝ) (c : Point) (arr : List Particle) :
    resetParticle arr = [] ∧
    animateTick W H c (resetParticle arr) = resetParticle arr :=
  ⟨rfl, by
    show animateLoop W H c [] 0 = []
    exact animateLoop_stop W H c [] 0 (by simp)⟩

end BlackHole
